import Mathlib

/-!
Verification of the `roitools` observation core (rectangular and circular
regions of interest over a video stream) against its natural-language
specification.

The Python sources are shallowly embedded:
* pixel intensities, channel means and timestamps are rationals (`ℚ`);
* coordinates are integers (`ℤ`), with Python-2 floor division rendered
  as `Int.fdiv`;
* the `rois` dict of `RoiCap` is an association list from id to ROI;
* exceptions (`ValueError`, `StopIteration`) become explicit result values;
* the in-place mutation of `RoiCap.next` (notify all ROIs, then draw all
  ROIs on the shared frame buffer) becomes a trace of actions interpreted
  over an explicit state.
-/

namespace Roitools

/-- `vidtools.Color`, a named BGR triple.  Channel means are rationals. -/
structure Color where
  blue : ℚ
  green : ℚ
  red : ℚ
  deriving DecidableEq, Repr

/-- `roitools.MeanBgrRecord = namedtuple('MeanBgrRecord', 'pos_frames pos_msec color')`. -/
structure MeanBgrRecord where
  pos_frames : ℚ
  pos_msec : ℚ
  color : Color
  deriving DecidableEq, Repr

/-- `np.mean` of a flat array of rationals (sum divided by length;
the sources only apply it to non-empty pixel arrays). -/
def npMean (l : List ℚ) : ℚ := l.sum / l.length

/-- Boolean-mask selection `array[instance.mask]`: keep the entries of the
flattened array whose mask bit is set. -/
def maskSelect (mask : List Bool) (arr : List ℚ) : List ℚ :=
  (arr.zip mask).filterMap (fun p => if p.2 then some p.1 else none)

/-- The mutable state of a `MeanRectRoi` / `MeanCircRoi` that
`_collect_mean_bgr` and `BaseRoi.notified` read and write.
`use_mask` is `True` for `MeanCircRoi.collect` and `False` for
`MeanRectRoi.collect`; `mask` is the flattened boolean mask. -/
structure MeanRoi where
  deaf : Bool
  delta_ig : ℚ
  use_mask : Bool
  mask : List Bool
  collected : List MeanBgrRecord
  deriving DecidableEq, Repr

/-- `roitools._collect_mean_bgr`: crop the observed frame (the three
cropped channel arrays `blue`, `green`, `red` are passed in, flattened),
optionally select the mask pixels, take per-channel means, and return
`None` when a last collected color exists and the new color differs from
it by less than `delta_ig` in every channel; otherwise return a new
`MeanBgrRecord` stamped with the capture's current position. -/
def collect_mean_bgr (roi : MeanRoi) (pos_frames pos_msec : ℚ)
    (blue green red : List ℚ) : Option MeanBgrRecord :=
  let b := if roi.use_mask then maskSelect roi.mask blue else blue
  let g := if roi.use_mask then maskSelect roi.mask green else green
  let r := if roi.use_mask then maskSelect roi.mask red else red
  let col : Color := ⟨npMean b, npMean g, npMean r⟩
  match roi.collected.getLast? with
  | some last =>
      if |col.blue - last.color.blue| < roi.delta_ig ∧
         |col.green - last.color.green| < roi.delta_ig ∧
         |col.red - last.color.red| < roi.delta_ig then
        none
      else
        some ⟨pos_frames, pos_msec, col⟩
  | none => some ⟨pos_frames, pos_msec, col⟩

/-- The mean BGR color `_collect_mean_bgr` computes for the current frame
(before the deduplication test). -/
def meanColor (roi : MeanRoi) (blue green red : List ℚ) : Color :=
  ⟨npMean (if roi.use_mask then maskSelect roi.mask blue else blue),
   npMean (if roi.use_mask then maskSelect roi.mask green else green),
   npMean (if roi.use_mask then maskSelect roi.mask red else red)⟩

/-- `BaseRoi.notified`: return unchanged if `deaf`; otherwise run
`collect` (here `_collect_mean_bgr`) and append its result to
`collected` when it is not `None`. -/
def MeanRoi.notified (roi : MeanRoi) (pos_frames pos_msec : ℚ)
    (blue green red : List ℚ) : MeanRoi :=
  if roi.deaf then roi
  else
    match collect_mean_bgr roi pos_frames pos_msec blue green red with
    | none => roi
    | some c => { roi with collected := roi.collected ++ [c] }

/-! ### Rectangle geometry (`BaseRoi.__init__`, `RectRoi.contains`) -/

/-- The geometric fields `BaseRoi.__init__` derives from the two opposite
vertices: sorted start/end slicing bounds (ends incremented by one after
the center is computed) and the center (Python 2 floor division). -/
structure RectRoi where
  vertex1 : ℤ × ℤ
  vertex2 : ℤ × ℤ
  st_x : ℤ
  end_x : ℤ
  st_y : ℤ
  end_y : ℤ
  center : ℤ × ℤ
  deriving DecidableEq, Repr

/-- `BaseRoi.__init__` geometry: `st_x, end_x = sorted((v1[0], v2[0]))`,
likewise for y; center at `st + (end - st)/2` computed before the ends
are incremented by one "to get correct values for slicing". -/
def RectRoi.mk' (vertex1 vertex2 : ℤ × ℤ) : RectRoi :=
  let st_x := min vertex1.1 vertex2.1
  let end_x := max vertex1.1 vertex2.1
  let st_y := min vertex1.2 vertex2.2
  let end_y := max vertex1.2 vertex2.2
  let center_x := st_x + Int.fdiv (end_x - st_x) 2
  let center_y := st_y + Int.fdiv (end_y - st_y) 2
  { vertex1 := vertex1, vertex2 := vertex2,
    st_x := st_x, end_x := end_x + 1, st_y := st_y, end_y := end_y + 1,
    center := (center_x, center_y) }

/-- `RectRoi.contains`: half-open membership in
`[st_x, end_x) × [st_y, end_y)`. -/
def RectRoi.contains (roi : RectRoi) (point : ℤ × ℤ) : Bool :=
  decide (roi.st_x ≤ point.1 ∧ point.1 < roi.end_x ∧
          roi.st_y ≤ point.2 ∧ point.2 < roi.end_y)

/-! ### Circle geometry (`CircRoi.__init__`, `CircRoi.compute_mask`,
`CircRoi.contains`) -/

/-- `CircRoi` state: the rectangle fields derived by `BaseRoi.__init__`
from the bounding-box vertices `(cx - r, cy - r)` and `(cx + r, cy + r)`,
plus `radius`, `radius_sq`, and the eagerly computed boolean mask. -/
structure CircRoi where
  rect : RectRoi
  radius : ℤ
  radius_sq : ℤ
  mask : List (List Bool)
  deriving DecidableEq, Repr

/-- `CircRoi.compute_mask`: `dx = end_x - st_x`, `dy = end_y - st_y`
(measured after the slicing increment), an all-`False` array of shape
`(dx, dy)`, mask center `(dx/2, dy/2)` (floor division), and
`mask[y][x] = True` for every `x ∈ range(dx)`, `y ∈ range(dy)` with
`(x - macenter[0])**2 + (y - macenter[1])**2 <= radius_sq`.  Row `i`,
column `j` of the resulting array is `True` exactly when the loop
iteration `x = j, y = i` is in range and satisfies the test. -/
def compute_mask_circ (st_x end_x st_y end_y radius_sq : ℤ) :
    List (List Bool) :=
  let dx := end_x - st_x
  let dy := end_y - st_y
  let macx := Int.fdiv dx 2
  let macy := Int.fdiv dy 2
  (List.range dx.toNat).map (fun i : ℕ =>
    (List.range dy.toNat).map (fun j : ℕ =>
      decide ((j : ℤ) < dx ∧ (i : ℤ) < dy ∧
        ((j : ℤ) - macx) ^ 2 + ((i : ℤ) - macy) ^ 2 ≤ radius_sq)))

/-- `CircRoi.__init__`: bounding-box vertices `(cx - r, cy - r)` and
`(cx + r, cy + r)` handed to `BaseRoi.__init__`, with `radius_sq = r**2`
and the mask computed over the resulting bounding box. -/
def CircRoi.mk' (center : ℤ × ℤ) (radius : ℤ) : CircRoi :=
  let v1 := (center.1 - radius, center.2 - radius)
  let v2 := (center.1 + radius, center.2 + radius)
  let rect := RectRoi.mk' v1 v2
  { rect := rect, radius := radius, radius_sq := radius ^ 2,
    mask := compute_mask_circ rect.st_x rect.end_x rect.st_y rect.end_y
      (radius ^ 2) }

/-- `CircRoi.contains`: squared distance to the (recomputed) center is at
most `radius_sq`. -/
def CircRoi.contains (roi : CircRoi) (point : ℤ × ℤ) : Bool :=
  decide ((point.1 - roi.rect.center.1) ^ 2 +
    (point.2 - roi.rect.center.2) ^ 2 ≤ roi.radius_sq)

/-! ### `RoiCap` registration (`RoiCap.add_roi`) and the global id
counter (`BaseRoi.__init__`, `TouchScreen._add_roi_helper`) -/

/-- The per-ROI registration state `RoiCap.add_roi` touches: the unique
id assigned at construction and the back-reference `cap` (Python `None`
until registration succeeds). -/
structure RegRoi where
  roiId : ℕ
  cap : Option Unit
  deriving DecidableEq, Repr

/-- Python dict assignment `d[k] = v` on an association list: overwrite
the entry with key `k` when present, otherwise append. -/
def dictInsert (d : List (ℕ × RegRoi)) (k : ℕ) (v : RegRoi) :
    List (ℕ × RegRoi) :=
  if d.any (fun p => p.1 = k) then
    d.map (fun p => if p.1 = k then (k, v) else p)
  else d ++ [(k, v)]

/-- `RoiCap._max_rois`. -/
def max_rois : ℕ := 100

/-- `RoiCap` state relevant to registration: the id → ROI mapping. -/
structure RoiCapState where
  rois : List (ℕ × RegRoi)
  deriving DecidableEq, Repr

/-- `RoiCap.add_roi`: if fewer than `_max_rois` ROIs are registered, map
the ROI's id to the ROI and set its `cap` back-reference; otherwise raise
`ValueError` (returned here as the error message, with both the capture
and the ROI unchanged).  The result is the capture state, the ROI, and
the raised error if any. -/
def RoiCapState.add_roi (cap : RoiCapState) (roi : RegRoi) :
    RoiCapState × RegRoi × Option String :=
  if cap.rois.length < max_rois then
    let roi' : RegRoi := { roi with cap := some () }
    ({ rois := dictInsert cap.rois roi.roiId roi' }, roi', none)
  else
    (cap, roi, some "cannot have more than 100 regions")

/-- `BaseRoi.__init__` id assignment: the new ROI takes `_next_id` and the
global counter is incremented.  Returns (assigned id, new counter). -/
def BaseRoi_new_id (next_id : ℕ) : ℕ × ℕ := (next_id, next_id + 1)

/-- Ids handed out by `n` successive `BaseRoi` constructions starting
from counter value `c`. -/
def construct_ids : ℕ → ℕ → List ℕ
  | 0, _ => []
  | n + 1, c => (BaseRoi_new_id c).1 :: construct_ids n (BaseRoi_new_id c).2

/-- `TouchScreen._add_roi_helper` (GUI): construct a ROI (consuming the
next id), try `add_roi`; when that raises the capacity `ValueError`, the
handler decrements `BaseRoi._next_id` by one.  Returns the capture state,
the counter after the attempt, and the id the constructed ROI received. -/
def add_roi_helper (cap : RoiCapState) (next_id : ℕ) :
    RoiCapState × ℕ × ℕ :=
  let idc := BaseRoi_new_id next_id
  let roi : RegRoi := { roiId := idc.1, cap := none }
  let res := cap.add_roi roi
  match res.2.2 with
  | some _ => (res.1, idc.2 - 1, idc.1)
  | none => (res.1, idc.2, idc.1)

/-! ### The notify/draw trace of one `advance()` tick
(`RoiCap.next`, `RoiCap._notify_rois`, `RoiCap.draw_rois`,
`RoiVideo.draw_active_rois`, `RoiVideo.next`) -/

/-- The lifecycle data of a registered ROI that the tick loops inspect:
its id and its end timestamp (`end_pos_frames` is a dynamically added
attribute, so `none` models `not hasattr(roi, 'end_pos_frames')`). -/
structure TickRoi where
  roiId : ℕ
  end_pos_frames : Option ℚ
  deriving DecidableEq, Repr

/-- One observable action of a tick: `roi.notified()` (which may collect
a sample from the shared frame) or `roi.draw()` (which writes the ROI's
outline and id text onto the shared frame). -/
inductive RoiAction where
  | notify (roiId : ℕ)
  | draw (roiId : ℕ)
  deriving DecidableEq, Repr

/-- The action trace of `RoiCap.next`: `_notify_rois` calls
`roi.notified()` for every registered ROI, then `draw_rois` calls
`roi.draw()` for every registered ROI (no filtering on end timestamps). -/
def RoiCap.next_actions (rois : List TickRoi) : List RoiAction :=
  rois.map (fun r => RoiAction.notify r.roiId) ++
  rois.map (fun r => RoiAction.draw r.roiId)

/-- The action trace of the GUI `RoiVideo.draw_active_rois`: draw exactly
the registered ROIs without an `end_pos_frames` attribute. -/
def RoiVideo.draw_active_actions (rois : List TickRoi) : List RoiAction :=
  rois.filterMap (fun r =>
    if r.end_pos_frames.isNone then some (RoiAction.draw r.roiId) else none)

/-- The action trace of the GUI `RoiVideo.next`: read the frame, then
`redraw`, which draws the active ROIs; no ROI is notified. -/
def RoiVideo.next_actions (rois : List TickRoi) : List RoiAction :=
  RoiVideo.draw_active_actions rois

/-- Interpreter state for one tick: the shared `latest_frame` buffer and
the samples appended so far during the tick (tagged with the collecting
ROI's id). -/
structure TickState (F S : Type) where
  frame : F
  samples : List (ℕ × S)

/-- One action against the shared frame: `notified` reads the current
frame buffer and may append a sample; `draw` overwrites the frame buffer
in place with the ROI's overlay. -/
def runAction {F S : Type} (collectFn : ℕ → F → Option S)
    (drawFn : ℕ → F → F) (s : TickState F S) : RoiAction → TickState F S
  | RoiAction.notify i =>
      match collectFn i s.frame with
      | some v => { s with samples := s.samples ++ [(i, v)] }
      | none => s
  | RoiAction.draw i => { s with frame := drawFn i s.frame }

/-- Run a whole action trace from a given tick state. -/
def runActions {F S : Type} (collectFn : ℕ → F → Option S)
    (drawFn : ℕ → F → F) (s : TickState F S) (acts : List RoiAction) :
    TickState F S :=
  acts.foldl (runAction collectFn drawFn) s

/-! ### End-of-stream versus decode failure (`PyCap.next`) -/

/-- What actually happened in the underlying video source when a frame
was requested. -/
inductive SourceOutcome (F : Type) where
  | frame (f : F)
  | exhausted
  | decodeFailure
  deriving DecidableEq, Repr

/-- `cv2.VideoCapture.read` as consumed by `PyCap.next`: a success flag
and the decoded array.  cv2 reports `(False, None)` both when the stream
is exhausted and when a read of an existing frame fails, so the two
failure outcomes produce the same value. -/
def cv2_read {F : Type} : SourceOutcome F → Option F
  | SourceOutcome.frame f => some f
  | SourceOutcome.exhausted => none
  | SourceOutcome.decodeFailure => none

/-- What a call to `PyCap.next` does: return the frame, or raise
`StopIteration`. -/
inductive NextResult (F : Type) where
  | frame (f : F)
  | stopIteration
  deriving DecidableEq, Repr

/-- `PyCap.next`: `success, array = self._cv2cap.read(); if not success:
raise StopIteration; return Frame(array, self.title)`. -/
def PyCap.next {F : Type} (o : SourceOutcome F) : NextResult F :=
  match cv2_read o with
  | some f => NextResult.frame f
  | none => NextResult.stopIteration

/-- `RoiCap.next` delegates the read to `PyCap.next`; an exception there
propagates before any ROI is notified or drawn, so the signal seen by the
caller is the same. -/
def RoiCap.next_signal {F : Type} (o : SourceOutcome F) : NextResult F :=
  PyCap.next o

/-! ### Finishing with optional swap (`cb_finish_rois`) -/

/-- The four lifecycle timestamps of a finished ROI. -/
structure RoiTimes where
  start_pos_msec : ℚ
  start_pos_frames : ℚ
  end_pos_msec : ℚ
  end_pos_frames : ℚ
  deriving DecidableEq, Repr

/-- The per-ROI body of `cb_finish_rois`: set `end_pos_msec` and
`end_pos_frames` to the capture's current position, then, if the swap
option is set and `end_pos_frames < start_pos_frames`, exchange the msec
pair and the frames pair. -/
def finish_roi (start_msec start_frames : ℚ) (end_msec end_frames : ℚ)
    (swap : Bool) : RoiTimes :=
  let r : RoiTimes := ⟨start_msec, start_frames, end_msec, end_frames⟩
  if swap ∧ r.end_pos_frames < r.start_pos_frames then
    { r with
      end_pos_msec := r.start_pos_msec, start_pos_msec := r.end_pos_msec,
      end_pos_frames := r.start_pos_frames,
      start_pos_frames := r.end_pos_frames }
  else r

/-! ### Export and re-parse (`_to_file_mean_bgr`) -/

/-- One line of the export file: a plain text line, or a delimited row
written by `csv.writer` whose cells are strings (the fixed column header)
or numbers (the sample data). -/
inductive FileLine where
  | text (s : String)
  | row (cells : List (String ⊕ ℚ))
  deriving DecidableEq, Repr

/-- `_to_file_mean_bgr`: write `instance.info()` (a block of header text
lines, passed in abstractly since it embeds the wall-clock date), then the
fixed column-header row, then the sentinel line `HEADER_END`, then one
delimited row `(pos_frames, pos_msec, blue, green, red)` per collected
sample, in collection order. -/
def to_file_mean_bgr (infoLines : List String)
    (collected : List MeanBgrRecord) : List FileLine :=
  infoLines.map FileLine.text ++
  [FileLine.row [Sum.inl "pos_frames", Sum.inl "pos_msec",
    Sum.inl "blue_avg", Sum.inl "green_avg", Sum.inl "red_avg"]] ++
  [FileLine.text "HEADER_END"] ++
  collected.map (fun r => FileLine.row
    [Sum.inr r.pos_frames, Sum.inr r.pos_msec, Sum.inr r.color.blue,
     Sum.inr r.color.green, Sum.inr r.color.red])

/-- Modelled from the spec: re-parse the rows that follow the
`HEADER_END` terminator, each a five-cell numeric row
`(pos_frames, pos_msec, blue_avg, green_avg, red_avg)`, back into
`MeanBgrRecord`s. -/
def parse_rows : List FileLine → Option (List MeanBgrRecord)
  | [] => some []
  | FileLine.row [Sum.inr fp, Sum.inr ms, Sum.inr b, Sum.inr g,
      Sum.inr r] :: rest =>
      (parse_rows rest).map (fun tl => ⟨fp, ms, ⟨b, g, r⟩⟩ :: tl)
  | _ => none

/-- Modelled from the spec: skip everything up to and including the first
`HEADER_END` line, then parse the remaining delimited rows. -/
def parse_table : List FileLine → Option (List MeanBgrRecord)
  | [] => none
  | FileLine.text s :: rest =>
      if s = "HEADER_END" then parse_rows rest else parse_table rest
  | FileLine.row _ :: rest => parse_table rest

/-! ## Theorems -/

/-- C10: for every rectangular Region built from opposite vertices `v1`
and `v2`, the stored exclusive bounds `end_x`/`end_y` are the maximum
vertex coordinates plus one, and both constructor vertices satisfy
`contains` despite the strict upper bound of the membership test. -/
theorem claim_C10_rect_contains_vertices (v1 v2 : ℤ × ℤ) :
    (RectRoi.mk' v1 v2).end_x = max v1.1 v2.1 + 1 ∧
    (RectRoi.mk' v1 v2).end_y = max v1.2 v2.2 + 1 ∧
    (RectRoi.mk' v1 v2).contains v1 = true ∧
    (RectRoi.mk' v1 v2).contains v2 = true := by
  refine ⟨rfl, rfl, ?_, ?_⟩ <;>
    simp only [RectRoi.mk', RectRoi.contains, decide_eq_true_eq] <;>
    omega

/-- C8: finishing an active Region with the swap option enabled when the
end position precedes the start position exchanges both the msec pair and
the frames pair, so the resulting interval has non-negative duration in
both units. -/
theorem claim_C8_finish_swap (start_msec start_frames end_msec
    end_frames : ℚ) (h : end_frames < start_frames) :
    finish_roi start_msec start_frames end_msec end_frames true =
      ⟨end_msec, end_frames, start_msec, start_frames⟩ ∧
    0 ≤ (finish_roi start_msec start_frames end_msec end_frames
          true).end_pos_frames -
        (finish_roi start_msec start_frames end_msec end_frames
          true).start_pos_frames := by
  constructor
  · simp [finish_roi, h]
  · simp [finish_roi, h]
    linarith

/-- Witness for C8 at the spec's example: `start_pos_frames = 50`,
finished at `end_pos_frames = 20` with swap enabled ends with
`start_pos_frames = 20` and `end_pos_frames = 50`. -/
theorem claim_C8_witness :
    finish_roi 5000 50 2000 20 true = ⟨2000, 20, 5000, 50⟩ ∧
    0 ≤ (finish_roi 5000 50 2000 20 true).end_pos_frames -
        (finish_roi 5000 50 2000 20 true).start_pos_frames :=
  claim_C8_finish_swap 5000 50 2000 20 (by norm_num)

/-- C4 counterexample: the claim that exhaustion and a failed read of an
existing frame are distinguishable by the caller is false — `PyCap.next`
returns the identical `StopIteration` signal for both source outcomes,
because `cv2.VideoCapture.read` reports only a success flag. -/
theorem claim_C4_counterexample :
    PyCap.next (F := ℕ) SourceOutcome.exhausted =
      PyCap.next (F := ℕ) SourceOutcome.decodeFailure ∧
    PyCap.next (F := ℕ) SourceOutcome.exhausted =
      NextResult.stopIteration := ⟨rfl, rfl⟩

/-- C4 (amended): `PyCap.next` (and hence `RoiCap.next`, which delegates
the read before notifying any ROI) raises `StopIteration` both when the
source is exhausted and when a read of an existing frame fails; the two
conditions yield the same signal and are not distinguishable. -/
theorem claim_C4_stop_iteration_conflates (F : Type) :
    RoiCap.next_signal (F := F) SourceOutcome.exhausted =
      NextResult.stopIteration ∧
    RoiCap.next_signal (F := F) SourceOutcome.decodeFailure =
      NextResult.stopIteration ∧
    RoiCap.next_signal (F := F) SourceOutcome.exhausted =
      RoiCap.next_signal (F := F) SourceOutcome.decodeFailure :=
  ⟨rfl, rfl, rfl⟩

/-- The ids of the notify actions of a trace, in order. -/
def notify_ids (acts : List RoiAction) : List ℕ :=
  acts.filterMap (fun a => match a with
    | RoiAction.notify i => some i
    | RoiAction.draw _ => none)

/-- The ids of the draw actions of a trace, in order. -/
def draw_ids (acts : List RoiAction) : List ℕ :=
  acts.filterMap (fun a => match a with
    | RoiAction.draw i => some i
    | RoiAction.notify _ => none)

/-- C5 counterexample: the claim that on an `advance()` step render is
invoked only for registered Regions lacking an end timestamp is false for
`RoiCap.next` — a Region finished at frame 20 but still registered is
drawn on the next tick. -/
theorem claim_C5_counterexample :
    RoiAction.draw 1 ∈ RoiCap.next_actions [⟨1, some 20⟩] ∧
    (⟨1, some 20⟩ : TickRoi).end_pos_frames ≠ none := by
  constructor
  · simp [RoiCap.next_actions]
  · simp

/-- C5 (amended): on a `RoiCap.next` tick, after all Regions are
notified, `draw` is invoked for every registered Region, finished or not;
only the GUI subclass `RoiVideo` restricts drawing to Regions lacking an
end timestamp (`draw_active_rois`), and its `next` override notifies no
Region at all. -/
theorem notify_ids_map_notify (l : List TickRoi) :
    notify_ids (l.map (fun r => RoiAction.notify r.roiId)) =
      l.map TickRoi.roiId := by
  induction l with
  | nil => rfl
  | cons r rs ih => simp only [notify_ids, List.map_cons,
      List.filterMap_cons] at ih ⊢; simp [ih]

theorem notify_ids_map_draw (l : List TickRoi) :
    notify_ids (l.map (fun r => RoiAction.draw r.roiId)) = [] := by
  induction l with
  | nil => rfl
  | cons r rs ih => simp only [notify_ids, List.map_cons,
      List.filterMap_cons] at ih ⊢; simp [ih]

theorem draw_ids_map_draw (l : List TickRoi) :
    draw_ids (l.map (fun r => RoiAction.draw r.roiId)) =
      l.map TickRoi.roiId := by
  induction l with
  | nil => rfl
  | cons r rs ih => simp only [draw_ids, List.map_cons,
      List.filterMap_cons] at ih ⊢; simp [ih]

theorem draw_ids_map_notify (l : List TickRoi) :
    draw_ids (l.map (fun r => RoiAction.notify r.roiId)) = [] := by
  induction l with
  | nil => rfl
  | cons r rs ih => simp only [draw_ids, List.map_cons,
      List.filterMap_cons] at ih ⊢; simp [ih]

theorem draw_active_actions_eq (rois : List TickRoi) :
    RoiVideo.draw_active_actions rois =
      (rois.filter (fun r => r.end_pos_frames.isNone)).map
        (fun r => RoiAction.draw r.roiId) := by
  induction rois with
  | nil => rfl
  | cons r rs ih =>
      simp only [RoiVideo.draw_active_actions, List.filterMap_cons,
        List.filter_cons] at ih ⊢
      cases hr : r.end_pos_frames with
      | none =>
          simp only [hr, Option.isNone_none, if_true, List.map_cons]
          exact congrArg _ ih
      | some q =>
          simp only [hr, Option.isNone_some, Bool.false_eq_true,
            if_false]
          exact ih

theorem claim_C5_draw_sets (rois : List TickRoi) :
    notify_ids (RoiCap.next_actions rois) = rois.map TickRoi.roiId ∧
    draw_ids (RoiCap.next_actions rois) = rois.map TickRoi.roiId ∧
    RoiVideo.next_actions rois =
      (rois.filter (fun r => r.end_pos_frames.isNone)).map
        (fun r => RoiAction.draw r.roiId) ∧
    notify_ids (RoiVideo.next_actions rois) = [] := by
  refine ⟨?_, ?_, draw_active_actions_eq rois, ?_⟩
  · simp only [RoiCap.next_actions, notify_ids, List.filterMap_append]
    have h1 := notify_ids_map_notify rois
    have h2 := notify_ids_map_draw rois
    simp only [notify_ids] at h1 h2
    simp [h1, h2]
  · simp only [RoiCap.next_actions, draw_ids, List.filterMap_append]
    have h1 := draw_ids_map_notify rois
    have h2 := draw_ids_map_draw rois
    simp only [draw_ids] at h1 h2
    simp [h1, h2]
  · rw [show RoiVideo.next_actions rois =
      RoiVideo.draw_active_actions rois from rfl, draw_active_actions_eq]
    exact notify_ids_map_draw _

/-- C3: with the mapping at the cap of 100 active Regions, `add_roi`
raises the capacity `ValueError` and mutates nothing — capture state and
ROI (in particular its `cap` back-reference) are returned unchanged, so
the mapping still has exactly 100 entries; under the cap, `add_roi`
raises nothing. -/
theorem claim_C3_capacity (cap : RoiCapState) (roi : RegRoi) :
    (cap.rois.length = max_rois →
      cap.add_roi roi =
        (cap, roi, some "cannot have more than 100 regions") ∧
      (cap.add_roi roi).1.rois.length = 100 ∧
      (cap.add_roi roi).2.1.cap = roi.cap) ∧
    (cap.rois.length < max_rois →
      (cap.add_roi roi).2.2 = none) := by
  constructor
  · intro h
    have hnot : ¬ cap.rois.length < max_rois := by omega
    have he : cap.add_roi roi =
        (cap, roi, some "cannot have more than 100 regions") := by
      simp [RoiCapState.add_roi, hnot]
    refine ⟨he, ?_, ?_⟩ <;> rw [he]
    · simpa [max_rois] using h
  · intro h
    simp [RoiCapState.add_roi, h]

/-- A capture filled with 100 registered Regions (ids 0–99). -/
def fullCap : RoiCapState :=
  { rois := (List.range 100).map (fun i => (i, ⟨i, some ()⟩)) }

/-- Witness for C3: adding Region 100 to a full capture fails with the
capacity error and changes nothing, while adding to a 99-entry capture
raises no error. -/
theorem claim_C3_witness :
    RoiCapState.add_roi fullCap ⟨100, none⟩ =
      (fullCap, ⟨100, none⟩, some "cannot have more than 100 regions") ∧
    (RoiCapState.add_roi ⟨(List.range 99).map (fun i => (i, ⟨i, some ()⟩))⟩
      ⟨99, none⟩).2.2 = none :=
  ⟨((claim_C3_capacity fullCap ⟨100, none⟩).1
      (by simp [fullCap, max_rois])).1,
   (claim_C3_capacity _ ⟨99, none⟩).2 (by simp [max_rois])⟩

/-- C6 counterexample: the claim that an id consumed by a Region rejected
for capacity is never assigned to a later Region is false — the GUI
handler decrements the global counter on the capacity error, so after the
rejected Region took id 200 the counter is back at 200 and the next
construction receives id 200 again. -/
theorem claim_C6_counterexample :
    (add_roi_helper fullCap 200).2.2 = 200 ∧
    (add_roi_helper fullCap 200).2.1 = 200 ∧
    (BaseRoi_new_id (add_roi_helper fullCap 200).2.1).1 = 200 := by
  have h : ¬ fullCap.rois.length < max_rois := by simp [fullCap, max_rois]
  refine ⟨?_, ?_, ?_⟩ <;>
    simp [add_roi_helper, RoiCapState.add_roi, BaseRoi_new_id, h]

/-- C6 (amended): ids are strictly increasing and distinct across
successive constructions — `N` constructions from counter `c` yield
exactly `c, c+1, …, c+N-1` — but when `_add_roi_helper` catches the
capacity error it decrements the global counter, so the id consumed by
the rejected Region is assigned again to the next constructed Region. -/
theorem claim_C6_ids (n c cw : ℕ) (cap : RoiCapState)
    (hfull : cap.rois.length = max_rois) :
    construct_ids n c = (List.range n).map (fun i => c + i) ∧
    (construct_ids n c).Pairwise (· < ·) ∧
    (add_roi_helper cap cw).2.1 = cw ∧
    (add_roi_helper cap cw).2.2 = cw ∧
    (BaseRoi_new_id (add_roi_helper cap cw).2.1).1 =
      (add_roi_helper cap cw).2.2 := by
  have hids : ∀ m d,
      construct_ids m d = (List.range m).map (fun i => d + i) := by
    intro m
    induction m with
    | zero => intro d; rfl
    | succ k ih =>
        intro d
        rw [List.range_succ_eq_map]
        simp only [construct_ids, BaseRoi_new_id, List.map_cons,
          List.map_map]
        refine congrArg₂ List.cons (by omega) ?_
        rw [ih (d + 1)]
        exact List.map_congr_left (fun i _ => by
          simp only [Function.comp_apply]; omega)
  have hnot : ¬ cap.rois.length < max_rois := by omega
  refine ⟨hids n c, ?_, ?_, ?_, ?_⟩
  · rw [hids n c]
    refine List.pairwise_map.mpr ?_
    have := List.pairwise_lt_range n
    exact this.imp_of_mem (fun {a b} _ _ hab => by omega)
  · simp [add_roi_helper, RoiCapState.add_roi, BaseRoi_new_id, hnot]
  · simp [add_roi_helper, RoiCapState.add_roi, BaseRoi_new_id, hnot]
  · simp [add_roi_helper, RoiCapState.add_roi, BaseRoi_new_id, hnot]

/-- Witness for C6 (amended) at `n = 3`, `c = 1` and the full capture
with the counter at 200. -/
theorem claim_C6_witness :
    construct_ids 3 1 = (List.range 3).map (fun i => 1 + i) ∧
    (construct_ids 3 1).Pairwise (· < ·) ∧
    (add_roi_helper fullCap 200).2.1 = 200 ∧
    (add_roi_helper fullCap 200).2.2 = 200 ∧
    (BaseRoi_new_id (add_roi_helper fullCap 200).2.1).1 =
      (add_roi_helper fullCap 200).2.2 :=
  claim_C6_ids 3 1 200 fullCap (by simp [fullCap, max_rois])

/-- Folding the notify phase over a trace: the frame buffer is not
touched, and the tick appends exactly the samples computed by each ROI
from the current frame, in ROI order. -/
theorem runActions_notify_phase {F S : Type}
    (collectFn : ℕ → F → Option S) (drawFn : ℕ → F → F)
    (rois : List TickRoi) (s : TickState F S) :
    runActions collectFn drawFn s
        (rois.map (fun r => RoiAction.notify r.roiId)) =
      ⟨s.frame, s.samples ++ rois.filterMap (fun r =>
        (collectFn r.roiId s.frame).map (fun v => (r.roiId, v)))⟩ := by
  induction rois generalizing s with
  | nil => simp [runActions]
  | cons r rs ih =>
      simp only [List.map_cons, runActions, List.foldl_cons,
        List.filterMap_cons]
      cases hc : collectFn r.roiId s.frame with
      | none =>
          have := ih s
          simp only [runActions] at this
          simp [runAction, hc, this]
      | some v =>
          have := ih ⟨s.frame, s.samples ++ [(r.roiId, v)]⟩
          simp only [runActions] at this
          simp [runAction, hc, this]

/-- Folding the draw phase over a trace: samples are not touched. -/
theorem runActions_draw_phase {F S : Type}
    (collectFn : ℕ → F → Option S) (drawFn : ℕ → F → F)
    (rois : List TickRoi) (s : TickState F S) :
    (runActions collectFn drawFn s
        (rois.map (fun r => RoiAction.draw r.roiId))).samples =
      s.samples := by
  induction rois generalizing s with
  | nil => simp [runActions]
  | cons r rs ih =>
      simp only [List.map_cons, runActions, List.foldl_cons]
      have := ih ⟨drawFn r.roiId s.frame, s.samples⟩
      simp only [runActions] at this
      simpa [runAction] using this

/-- C7: within one `RoiCap.next` tick — whatever each ROI's `collect`
does and whatever each ROI's `draw` writes onto the shared frame — every
sample collected during the tick is computed from the frame as read,
because the trace notifies every registered ROI before any ROI draws. -/
theorem claim_C7_samples_from_fresh_frame {F S : Type}
    (collectFn : ℕ → F → Option S) (drawFn : ℕ → F → F)
    (rois : List TickRoi) (f : F) :
    (runActions collectFn drawFn ⟨f, []⟩
        (RoiCap.next_actions rois)).samples =
      rois.filterMap (fun r =>
        (collectFn r.roiId f).map (fun v => (r.roiId, v))) := by
  rw [RoiCap.next_actions, show runActions collectFn drawFn ⟨f, []⟩
      (rois.map (fun r => RoiAction.notify r.roiId) ++
       rois.map (fun r => RoiAction.draw r.roiId)) =
      runActions collectFn drawFn
        (runActions collectFn drawFn ⟨f, []⟩
          (rois.map (fun r => RoiAction.notify r.roiId)))
        (rois.map (fun r => RoiAction.draw r.roiId)) from
    List.foldl_append _ _ _ _]
  rw [runActions_notify_phase]
  rw [runActions_draw_phase]
  simp

/-- Re-parsing the data rows produced for a collected sequence recovers
the sequence. -/
theorem parse_rows_roundtrip (collected : List MeanBgrRecord) :
    parse_rows (collected.map (fun r => FileLine.row
      [Sum.inr r.pos_frames, Sum.inr r.pos_msec, Sum.inr r.color.blue,
       Sum.inr r.color.green, Sum.inr r.color.red])) = some collected := by
  induction collected with
  | nil => rfl
  | cons r rs ih => simp [parse_rows, ih]

/-- C9: export round-trip — writing a Mean ROI's collected samples with
`to_file_mean_bgr` and re-parsing the delimited table that follows the
`HEADER_END` terminator yields exactly the original
`(pos_frames, pos_msec, (b, g, r))` tuples, one row per sample, in
collection order (the header text produced by `info()` contains no
`HEADER_END` line of its own). -/
theorem claim_C9_roundtrip (infoLines : List String)
    (collected : List MeanBgrRecord)
    (h : "HEADER_END" ∉ infoLines) :
    parse_table (to_file_mean_bgr infoLines collected) = some collected := by
  induction infoLines with
  | nil =>
      simp only [to_file_mean_bgr, List.map_nil, List.nil_append,
        List.cons_append, parse_table, List.nil_append]
      simp only [if_true, List.nil_append]
      exact parse_rows_roundtrip collected
  | cons s ss ih =>
      have hs : s ≠ "HEADER_END" := fun hq => h (hq ▸ List.mem_cons_self s ss)
      have hss : "HEADER_END" ∉ ss := fun hq => h (List.mem_cons_of_mem s hq)
      simp only [to_file_mean_bgr, List.map_cons, List.cons_append,
        parse_table]
      rw [if_neg hs]
      exact ih hss

/-- The three collected samples of the witness export. -/
def sampleCollected : List MeanBgrRecord :=
  [⟨0, 0, ⟨100, 100, 100⟩⟩, ⟨1, 40, ⟨106, 100, 100⟩⟩,
   ⟨2, 80, ⟨50, 60, 70⟩⟩]

/-- Witness for C9 with a concrete two-line header and three samples. -/
theorem claim_C9_witness :
    parse_table (to_file_mean_bgr ["ROI_ID 1", "ROI_TYPE RectRoi"]
      sampleCollected) = some sampleCollected :=
  claim_C9_roundtrip ["ROI_ID 1", "ROI_TYPE RectRoi"] sampleCollected
    (by decide)

/-- Unfolding `collect_mean_bgr` on a non-empty collected sequence. -/
theorem collect_mean_bgr_getLast (roi : MeanRoi)
    (pos_frames pos_msec : ℚ) (blue green red : List ℚ)
    (h : roi.collected ≠ []) :
    collect_mean_bgr roi pos_frames pos_msec blue green red =
      if |(meanColor roi blue green red).blue -
            (roi.collected.getLast h).color.blue| < roi.delta_ig ∧
         |(meanColor roi blue green red).green -
            (roi.collected.getLast h).color.green| < roi.delta_ig ∧
         |(meanColor roi blue green red).red -
            (roi.collected.getLast h).color.red| < roi.delta_ig then
        none
      else some ⟨pos_frames, pos_msec, meanColor roi blue green red⟩ := by
  have hlast : roi.collected.getLast? = some (roi.collected.getLast h) :=
    List.getLast?_eq_getLast _ h
  unfold collect_mean_bgr
  rw [hlast]
  rfl

/-- C1: for a Mean ROI with a non-empty collected sequence, a
notification appends the newly computed mean sample if and only if the
ROI is not deaf and the new color differs from the most recently recorded
color by at least `delta_ig` in at least one channel; a deaf ROI, or a
new color within `delta_ig` of the last one in every channel, records
nothing; and with `delta_ig = 0` a non-deaf ROI records on every
notification. -/
theorem claim_C1_dedup (roi : MeanRoi) (pos_frames pos_msec : ℚ)
    (blue green red : List ℚ) (h : roi.collected ≠ []) :
    ((roi.notified pos_frames pos_msec blue green red).collected =
        roi.collected ++
          [⟨pos_frames, pos_msec, meanColor roi blue green red⟩] ↔
      roi.deaf = false ∧
        (roi.delta_ig ≤ |(meanColor roi blue green red).blue -
            (roi.collected.getLast h).color.blue| ∨
         roi.delta_ig ≤ |(meanColor roi blue green red).green -
            (roi.collected.getLast h).color.green| ∨
         roi.delta_ig ≤ |(meanColor roi blue green red).red -
            (roi.collected.getLast h).color.red|)) ∧
    (roi.deaf = true →
      (roi.notified pos_frames pos_msec blue green red).collected =
        roi.collected) ∧
    ((|(meanColor roi blue green red).blue -
          (roi.collected.getLast h).color.blue| < roi.delta_ig ∧
      |(meanColor roi blue green red).green -
          (roi.collected.getLast h).color.green| < roi.delta_ig ∧
      |(meanColor roi blue green red).red -
          (roi.collected.getLast h).color.red| < roi.delta_ig) →
      (roi.notified pos_frames pos_msec blue green red).collected =
        roi.collected) ∧
    (roi.delta_ig = 0 ∧ roi.deaf = false →
      (roi.notified pos_frames pos_msec blue green red).collected =
        roi.collected ++
          [⟨pos_frames, pos_msec, meanColor roi blue green red⟩]) := by
  have hne : ∀ x : MeanBgrRecord,
      roi.collected ≠ roi.collected ++ [x] := by
    intro x hq
    have := congrArg List.length hq
    simp at this
  by_cases hdeaf : roi.deaf
  · have hnot : roi.notified pos_frames pos_msec blue green red = roi := by
      simp [MeanRoi.notified, hdeaf]
    refine ⟨?_, fun _ => by rw [hnot], fun _ => by rw [hnot], ?_⟩
    · rw [hnot]
      constructor
      · intro hq; exact absurd hq (hne _)
      · rintro ⟨hd, -⟩; rw [hdeaf] at hd; cases hd
    · rintro ⟨-, hd⟩; rw [hdeaf] at hd; cases hd
  · have hdf : roi.deaf = false := by simpa using hdeaf
    by_cases hcond :
        |(meanColor roi blue green red).blue -
            (roi.collected.getLast h).color.blue| < roi.delta_ig ∧
        |(meanColor roi blue green red).green -
            (roi.collected.getLast h).color.green| < roi.delta_ig ∧
        |(meanColor roi blue green red).red -
            (roi.collected.getLast h).color.red| < roi.delta_ig
    · have hnot : roi.notified pos_frames pos_msec blue green red = roi := by
        simp [MeanRoi.notified, hdf,
          collect_mean_bgr_getLast roi pos_frames pos_msec blue green red h,
          hcond]
      refine ⟨?_, fun _ => by rw [hnot], fun _ => by rw [hnot], ?_⟩
      · rw [hnot]
        constructor
        · intro hq; exact absurd hq (hne _)
        · rintro ⟨-, hor⟩
          rcases hor with hc | hc | hc <;>
            [exact absurd hcond.1 (not_lt.mpr hc);
             exact absurd hcond.2.1 (not_lt.mpr hc);
             exact absurd hcond.2.2 (not_lt.mpr hc)]
      · rintro ⟨hd0, -⟩
        exfalso
        have := hcond.1
        rw [hd0] at this
        exact absurd this (not_lt.mpr (abs_nonneg _))
    · have hnot : (roi.notified pos_frames pos_msec blue green red).collected
          = roi.collected ++
            [⟨pos_frames, pos_msec, meanColor roi blue green red⟩] := by
        simp [MeanRoi.notified, hdf,
          collect_mean_bgr_getLast roi pos_frames pos_msec blue green red h,
          hcond]
      push_neg at hcond
      refine ⟨?_, ?_, ?_, fun _ => hnot⟩
      · rw [hnot]
        constructor
        · intro _
          refine ⟨hdf, ?_⟩
          by_cases h1 :
              |(meanColor roi blue green red).blue -
                  (roi.collected.getLast h).color.blue| < roi.delta_ig
          · by_cases h2 :
                |(meanColor roi blue green red).green -
                    (roi.collected.getLast h).color.green| < roi.delta_ig
            · exact Or.inr (Or.inr (hcond h1 h2))
            · exact Or.inr (Or.inl (not_lt.mp h2))
          · exact Or.inl (not_lt.mp h1)
        · intro _; rfl
      · intro hd; rw [hd] at hdf; cases hdf
      · intro hq
        exact absurd (hcond hq.1 hq.2.1) (not_le.mpr hq.2.2)

/-- The concrete Mean ROI of the C1 witness: not deaf, `delta_ig = 5`,
one collected sample of color `(100, 100, 100)`. -/
def roiC1 : MeanRoi :=
  { deaf := false, delta_ig := 5, use_mask := false, mask := [],
    collected := [⟨0, 0, ⟨100, 100, 100⟩⟩] }

/-- Witness for C1: with `delta_ig = 5` and last color `(100,100,100)`,
a new frame of mean color `(106, 100, 100)` (blue differs by 6 ≥ 5) is
appended. -/
theorem claim_C1_witness :
    (roiC1.notified 1 40 [106] [100] [100]).collected =
      roiC1.collected ++ [⟨1, 40, meanColor roiC1 [106] [100] [100]⟩] :=
  (claim_C1_dedup roiC1 1 40 [106] [100] [100] (by decide)).1.mpr
    ⟨rfl, Or.inl (by norm_num [meanColor, npMean, roiC1])⟩

/-- Indexing a mapped range with a default. -/
theorem getD_map_range {α : Type} (f : ℕ → α) (n k : ℕ) (hk : k < n)
    (d : α) : ((List.range n).map f).getD k d = f k := by
  have hlen : k < ((List.range n).map f).length := by simpa using hk
  rw [List.getD_eq_getElem _ _ hlen]
  simp

/-- Entry `(y, x)` of the computed circular mask, for in-range indices:
it is the loop's distance test at `x, y` against the mask center
`(dx/2, dy/2)`. -/
theorem compute_mask_circ_get (st_x end_x st_y end_y rsq : ℤ) (x y : ℕ)
    (hy : (y : ℤ) < end_x - st_x) (hx : (x : ℤ) < end_y - st_y) :
    ((compute_mask_circ st_x end_x st_y end_y rsq).getD y []).getD x
        false =
      decide ((x : ℤ) < end_x - st_x ∧ (y : ℤ) < end_y - st_y ∧
        ((x : ℤ) - Int.fdiv (end_x - st_x) 2) ^ 2 +
          ((y : ℤ) - Int.fdiv (end_y - st_y) 2) ^ 2 ≤ rsq) := by
  have hy' : y < (end_x - st_x).toNat := by omega
  have hx' : x < (end_y - st_y).toNat := by omega
  unfold compute_mask_circ
  rw [getD_map_range _ _ y hy', getD_map_range _ _ x hx']

/-- C2: for a circular Region with center `c` and radius `r ≥ 0`,
`contains p` holds iff the squared distance from `p` to `c` is at most
`r²`, and the mask precomputed at construction agrees with this geometric
test at every pixel of the bounding box:
`mask[y][x] == contains(bbox_origin + (x, y))` for all
`0 ≤ x < width`, `0 ≤ y < height`. -/
theorem claim_C2_circ_mask (cx cy r : ℤ) (hr : 0 ≤ r) :
    (∀ p : ℤ × ℤ, (CircRoi.mk' (cx, cy) r).contains p = true ↔
      (p.1 - cx) ^ 2 + (p.2 - cy) ^ 2 ≤ r ^ 2) ∧
    (∀ x y : ℕ,
      (x : ℤ) < (CircRoi.mk' (cx, cy) r).rect.end_x -
        (CircRoi.mk' (cx, cy) r).rect.st_x →
      (y : ℤ) < (CircRoi.mk' (cx, cy) r).rect.end_y -
        (CircRoi.mk' (cx, cy) r).rect.st_y →
      ((CircRoi.mk' (cx, cy) r).mask.getD y []).getD x false =
        (CircRoi.mk' (cx, cy) r).contains
          ((CircRoi.mk' (cx, cy) r).rect.st_x + (x : ℤ),
           (CircRoi.mk' (cx, cy) r).rect.st_y + (y : ℤ))) := by
  have hfd : ∀ a : ℤ, Int.fdiv a 2 = a / 2 := fun a =>
    Int.fdiv_eq_ediv a (by norm_num)
  have hst_x : (CircRoi.mk' (cx, cy) r).rect.st_x = cx - r := by
    simp only [CircRoi.mk', RectRoi.mk']
    omega
  have hend_x : (CircRoi.mk' (cx, cy) r).rect.end_x = cx + r + 1 := by
    simp only [CircRoi.mk', RectRoi.mk']
    omega
  have hst_y : (CircRoi.mk' (cx, cy) r).rect.st_y = cy - r := by
    simp only [CircRoi.mk', RectRoi.mk']
    omega
  have hend_y : (CircRoi.mk' (cx, cy) r).rect.end_y = cy + r + 1 := by
    simp only [CircRoi.mk', RectRoi.mk']
    omega
  have hc1 : (CircRoi.mk' (cx, cy) r).rect.center.1 = cx := by
    simp only [CircRoi.mk', RectRoi.mk', hfd]
    omega
  have hc2 : (CircRoi.mk' (cx, cy) r).rect.center.2 = cy := by
    simp only [CircRoi.mk', RectRoi.mk', hfd]
    omega
  have hrsq : (CircRoi.mk' (cx, cy) r).radius_sq = r ^ 2 := rfl
  have hcont : ∀ p : ℤ × ℤ, (CircRoi.mk' (cx, cy) r).contains p = true ↔
      (p.1 - cx) ^ 2 + (p.2 - cy) ^ 2 ≤ r ^ 2 := by
    intro p
    simp [CircRoi.contains, hc1, hc2, hrsq]
  refine ⟨hcont, ?_⟩
  intro x y hx hy
  rw [hst_x, hend_x] at hx
  rw [hst_y, hend_y] at hy
  have hwx : cx + r + 1 - (cx - r) = 2 * r + 1 := by ring
  have hwy : cy + r + 1 - (cy - r) = 2 * r + 1 := by ring
  have hmask : (CircRoi.mk' (cx, cy) r).mask =
      compute_mask_circ (cx - r) (cx + r + 1) (cy - r) (cy + r + 1)
        (r ^ 2) := by
    show compute_mask_circ ((CircRoi.mk' (cx, cy) r).rect.st_x)
        ((CircRoi.mk' (cx, cy) r).rect.end_x)
        ((CircRoi.mk' (cx, cy) r).rect.st_y)
        ((CircRoi.mk' (cx, cy) r).rect.end_y) (r ^ 2) = _
    rw [hst_x, hend_x, hst_y, hend_y]
  rw [hmask, hst_x, hst_y,
    compute_mask_circ_get _ _ _ _ _ x y (by omega) (by omega)]
  have hfdw : Int.fdiv (2 * r + 1) 2 = r := by
    rw [hfd]; omega
  have hcr : (CircRoi.mk' (cx, cy) r).contains
      (cx - r + (x : ℤ), cy - r + (y : ℤ)) =
      decide ((cx - r + (x : ℤ) - cx) ^ 2 +
        (cy - r + (y : ℤ) - cy) ^ 2 ≤ r ^ 2) := by
    simp only [CircRoi.contains, hc1, hc2, hrsq]
  rw [hcr]
  refine (decide_eq_decide).mpr ?_
  have heq : ((x : ℤ) - r) ^ 2 + ((y : ℤ) - r) ^ 2 =
      (cx - r + (x : ℤ) - cx) ^ 2 + (cy - r + (y : ℤ) - cy) ^ 2 := by
    ring
  constructor
  · rintro ⟨-, -, hle⟩
    rw [hwx, hwy, hfdw] at hle
    rw [← heq]
    exact hle
  · intro hle
    refine ⟨by omega, by omega, ?_⟩
    rw [hwx, hwy, hfdw, heq]
    exact hle

/-- Witness for C2 at center `(5, 5)`, radius `2`: containment of the
boundary point `(7, 5)` and mask agreement at bounding-box offset
`(x, y) = (2, 0)`. -/
theorem claim_C2_witness :
    ((CircRoi.mk' (5, 5) 2).contains (7, 5) = true ↔
      ((7 : ℤ) - 5) ^ 2 + ((5 : ℤ) - 5) ^ 2 ≤ (2 : ℤ) ^ 2) ∧
    ((CircRoi.mk' (5, 5) 2).mask.getD 0 []).getD 2 false =
      (CircRoi.mk' (5, 5) 2).contains
        ((CircRoi.mk' (5, 5) 2).rect.st_x + (2 : ℤ),
         (CircRoi.mk' (5, 5) 2).rect.st_y + (0 : ℤ)) :=
  ⟨(claim_C2_circ_mask 5 5 2 (by norm_num)).1 (7, 5),
   (claim_C2_circ_mask 5 5 2 (by norm_num)).2 2 0 (by decide) (by decide)⟩

end Roitools
